import Mathlib

/-
Shallow embedding of the yoyo-migrations execution engine
(src/yoyo/migrations.py and src/yoyo/scripts/migrate.py).

The database backend is abstracted: a connection carries the list of
committed operations, the pending operations of the current transaction,
a counter of commit() calls, and a description of which step actions the
backend rejects (raising DatabaseError).  SQL placeholder substitution
(with_placeholders) is pure string rewriting orthogonal to the verified
claims; ledger statements are modelled structurally as ledger operations
on a named migration table.  Python exceptions are modelled by a result
type whose error constructor carries the connection state at raise time,
since raising does not undo mutations already made to the connection.
-/

set_option maxRecDepth 4096

namespace Yoyo

/-- An action attached to a migration step: either literal SQL text or an
opaque callable (identified by a numeric tag).  In the source a step's
`apply`/`rollback` argument is either a string or a Python callable. -/
inductive StepAction where
  | sql (text : String)
  | call (tag : Nat)
deriving DecidableEq, Repr

/-- An operation recorded against the database: execution of a step action,
or insertion/deletion of a ledger row `(table, id)` in a migration table.
The `ctime` column of a ledger row is not modelled; ledger queries in the
source only filter on the `id` column. -/
inductive Op where
  | act (a : StepAction)
  | ledgerInsert (table : String) (id : String)
  | ledgerDelete (table : String) (id : String)
deriving DecidableEq, Repr

/-- A DBAPI connection together with the database state it sees:
committed operations, pending (uncommitted) operations of the current
transaction, how many `commit()` calls were issued, and the backend
failure behaviour: executing a SQL text listed in `failSql`, or a callable
whose tag is listed in `failCall`, raises `DatabaseError`. -/
structure Conn where
  committed : List Op
  pending : List Op
  commits : Nat
  failSql : List String
  failCall : List Nat
deriving DecidableEq, Repr

/-- Python `conn.commit()`: the pending operations become permanent. -/
def Conn.commit (c : Conn) : Conn :=
  { c with committed := c.committed ++ c.pending, pending := [],
           commits := c.commits + 1 }

/-- Python `conn.rollback()`: the pending operations are discarded. -/
def Conn.rollback (c : Conn) : Conn :=
  { c with pending := [] }

/-- All operations visible through the connection (a query inside the
current transaction sees its own uncommitted writes). -/
def Conn.allOps (c : Conn) : List Op :=
  c.committed ++ c.pending

/-- Result of running engine code against a connection: normal return, or a
raised `DatabaseError` identified by the step action whose execution failed,
paired with the connection state at raise time. -/
inductive DbResult where
  | ok (conn : Conn)
  | err (e : StepAction) (conn : Conn)
deriving DecidableEq, Repr

/-- The connection state carried by a result, whether or not it raised. -/
def DbResult.conn : DbResult → Conn
  | .ok c => c
  | .err _ c => c

/-- Whether executing this action on this connection raises `DatabaseError`. -/
def StepAction.fails (a : StepAction) (c : Conn) : Bool :=
  match a with
  | .sql s => c.failSql.contains s
  | .call n => c.failCall.contains n

/-- Execute a step action (`cursor.execute(stmt)` for SQL text, or calling
the callable): on success the operation joins the current transaction's
pending operations; on failure `DatabaseError` is raised and the connection
is unchanged. -/
def execAct (a : StepAction) (c : Conn) : DbResult :=
  if a.fails c then .err a c
  else .ok { c with pending := c.pending ++ [Op.act a] }

/-- MigrationStep (migrations.py:172): one migration step with an `id`, an
apply action (`self._apply`: None, SQL text or callable) and a rollback
action (`self._rollback`). -/
structure MigrationStep where
  id : Nat
  _apply : Option StepAction
  _rollback : Option StepAction
deriving DecidableEq, Repr

/-- Python truth test on an optional action: `None` and the empty string
are falsy; any callable is truthy. -/
def actionTruthy : Option StepAction → Bool
  | none => false
  | some (.sql s) => !(s == "")
  | some (.call _) => true

/-- MigrationStep.apply (migrations.py:216): `if not self._apply: return`,
else execute the action.  The `force` parameter is accepted but unused in
the source. -/
def MigrationStep.apply (s : MigrationStep) (c : Conn) (force : Bool) : DbResult :=
  if actionTruthy s._apply then
    match s._apply with
    | some a => execAct a c
    | none => .ok c
  else .ok c

/-- MigrationStep.rollback (migrations.py:234): `if self._rollback is None:
return`, else execute the action — an empty-string action is executed. -/
def MigrationStep.rollback (s : MigrationStep) (c : Conn) (force : Bool) : DbResult :=
  match s._rollback with
  | none => .ok c
  | some a => execAct a c

/-- Values of the `ignore_errors` policy other than None. -/
inductive IgnoreErrors where
  | all
  | apply
  | rollback
deriving DecidableEq, Repr

/-- Transaction (migrations.py:135): an ordered group of steps sharing one
commit/rollback boundary, with an error-tolerance policy. -/
structure Transaction where
  steps : List MigrationStep
  ignore_errors : Option IgnoreErrors
deriving DecidableEq, Repr

/-- Condition under which Transaction.apply swallows a step failure:
`force or self.ignore_errors in ('apply', 'all')`. -/
def Transaction.swallowsApply (t : Transaction) (force : Bool) : Bool :=
  force || t.ignore_errors == some IgnoreErrors.apply
        || t.ignore_errors == some IgnoreErrors.all

/-- Condition under which Transaction.rollback swallows a step failure:
`force or self.ignore_errors in ('rollback', 'all')`. -/
def Transaction.swallowsRollback (t : Transaction) (force : Bool) : Bool :=
  force || t.ignore_errors == some IgnoreErrors.rollback
        || t.ignore_errors == some IgnoreErrors.all

/-- Loop body of Transaction.apply (migrations.py:146): run the remaining
steps in order; on a step's DatabaseError, roll back the current database
transaction, then either return normally (policy swallows) or re-raise;
if the end of the list is reached, commit once. -/
def Transaction.applyLoop (t : Transaction) (force : Bool) :
    Conn → List MigrationStep → DbResult
  | c, [] => .ok c.commit
  | c, s :: rest =>
    match s.apply c force with
    | .ok c2 => t.applyLoop force c2 rest
    | .err e c2 =>
      if t.swallowsApply force then .ok c2.rollback
      else .err e c2.rollback

/-- Transaction.apply (migrations.py:146). -/
def Transaction.apply (t : Transaction) (c : Conn) (force : Bool) : DbResult :=
  t.applyLoop force c t.steps

/-- Loop body of Transaction.rollback (migrations.py:159), over an already
reversed step list. -/
def Transaction.rollbackLoop (t : Transaction) (force : Bool) :
    Conn → List MigrationStep → DbResult
  | c, [] => .ok c.commit
  | c, s :: rest =>
    match s.rollback c force with
    | .ok c2 => t.rollbackLoop force c2 rest
    | .err e c2 =>
      if t.swallowsRollback force then .ok c2.rollback
      else .err e c2.rollback

/-- Transaction.rollback (migrations.py:159): iterate the steps in reverse
declared order. -/
def Transaction.rollback (t : Transaction) (c : Conn) (force : Bool) : DbResult :=
  t.rollbackLoop force c t.steps.reverse

/-- Direction of the shared step-processing algorithm. -/
inductive Direction where
  | apply
  | rollback
deriving DecidableEq, Repr

/-- The opposite direction (migrations.py:76). -/
def Direction.reverse : Direction → Direction
  | .apply => .rollback
  | .rollback => .apply

/-- Dynamic dispatch `getattr(step, direction)(conn, paramstyle, force)`. -/
def runDir (d : Direction) (t : Transaction) (c : Conn) (force : Bool) : DbResult :=
  match d with
  | .apply => t.apply c force
  | .rollback => t.rollback c force

/-- Compensation pass of Migration._process_steps (migrations.py:89-94):
`for step in reversed(executed_steps): getattr(step, reverse)(conn,
paramstyle)` wrapped in a single try/except DatabaseError.  The argument
list is the already reversed `executed_steps`; each call uses the default
`force=False`.  A raised DatabaseError is logged and — because the handler
is outside the loop — the remaining compensations are abandoned. -/
def compensateLoop (rev : Direction) : Conn → List Transaction → Conn
  | c, [] => c
  | c, t :: rest =>
    match runDir rev t c false with
    | .ok c2 => compensateLoop rev c2 rest
    | .err _ c2 => c2

/-- Main loop of Migration._process_steps (migrations.py:81-95): run each
transaction in the given direction, accumulating the ones that completed
into `executed`; on a DatabaseError, roll back the current database
transaction, compensate over `reversed(executed_steps)`, and re-raise the
original failure. -/
def processLoop (d : Direction) (force : Bool) :
    Conn → List Transaction → List Transaction → DbResult
  | c, _, [] => .ok c
  | c, executed, t :: rest =>
    match runDir d t c force with
    | .ok c2 => processLoop d force c2 (executed ++ [t]) rest
    | .err e c2 =>
      .err e (compensateLoop d.reverse c2.rollback executed.reverse)

/-- Migration._process_steps (migrations.py:73). -/
def process_steps (steps : List Transaction) (d : Direction) (force : Bool)
    (c : Conn) : DbResult :=
  processLoop d force c [] steps

/-- Kind of a migration object: plain Migration, or the
PostApplyHookMigration subclass. -/
inductive MigrationKind where
  | normal
  | postApplyHook
deriving DecidableEq, Repr

/-- Migration (migrations.py:28): a named ordered list of transactions plus
the raw source text.  `kind` records the Python class of the object. -/
structure Migration where
  id : String
  steps : List Transaction
  source : String
  kind : MigrationKind
deriving DecidableEq, Repr

/-- Rows of one migration table after a list of operations, in insertion
order; `DELETE FROM table WHERE id=?` removes every matching row. -/
def applyLedgerOp (tbl : String) (rows : List String) : Op → List String
  | Op.act _ => rows
  | Op.ledgerInsert t i => if t == tbl then rows ++ [i] else rows
  | Op.ledgerDelete t i => if t == tbl then rows.filter (fun r => !(r == i)) else rows

/-- The `id` column of the migration table `tbl` produced by `ops`. -/
def ledgerRows (tbl : String) (ops : List Op) : List String :=
  ops.foldl (applyLedgerOp tbl) []

/-- Migration.isapplied (migrations.py:35): `SELECT COUNT(1) FROM
<migration_table> WHERE id=?` and compare the count with 0. -/
def Migration.isapplied (m : Migration) (c : Conn) (migration_table : String) : Bool :=
  decide (0 < (ledgerRows migration_table c.allOps).count m.id)

/-- Migration.apply (migrations.py:47): process the transactions in order
in the apply direction; on success insert the ledger row `(id, ctime)` and
commit. -/
def Migration.apply (m : Migration) (c : Conn) (migration_table : String)
    (force : Bool) : DbResult :=
  match process_steps m.steps Direction.apply force c with
  | .err e c2 => .err e c2
  | .ok c2 =>
    .ok { c2 with pending :=
            c2.pending ++ [Op.ledgerInsert migration_table m.id] }.commit

/-- Migration.rollback (migrations.py:60): process `reversed(self.steps)`
in the rollback direction; on success delete the ledger row and commit. -/
def Migration.rollback (m : Migration) (c : Conn) (migration_table : String)
    (force : Bool) : DbResult :=
  match process_steps m.steps.reverse Direction.rollback force c with
  | .err e c2 => .err e c2
  | .ok c2 =>
    .ok { c2 with pending :=
            c2.pending ++ [Op.ledgerDelete migration_table m.id] }.commit

/-- PostApplyHookMigration.apply (migrations.py:105): process the steps
with `force=True` and never touch the ledger. -/
def PostApplyHookMigration.apply (m : Migration) (c : Conn)
    (migration_table : String) (force : Bool) : DbResult :=
  process_steps m.steps Direction.apply true c

/-- PostApplyHookMigration.rollback (migrations.py:115): process
`reversed(self.steps)` with `force=True` and never touch the ledger. -/
def PostApplyHookMigration.rollback (m : Migration) (c : Conn)
    (migration_table : String) (force : Bool) : DbResult :=
  process_steps m.steps.reverse Direction.rollback true c

/-- Python dynamic dispatch of `m.apply(...)` on the object's class. -/
def Migration.applyVirtual (m : Migration) (c : Conn) (migration_table : String)
    (force : Bool) : DbResult :=
  match m.kind with
  | .normal => m.apply c migration_table force
  | .postApplyHook => PostApplyHookMigration.apply m c migration_table force

/-- Python dynamic dispatch of `m.rollback(...)` on the object's class. -/
def Migration.rollbackVirtual (m : Migration) (c : Conn) (migration_table : String)
    (force : Bool) : DbResult :=
  match m.kind with
  | .normal => m.rollback c migration_table force
  | .postApplyHook => PostApplyHookMigration.rollback m c migration_table force

/-- MigrationList (migrations.py:299): the list part holds the Normal
members; `post_apply` holds the PostApplyHookMigration members.  The Python
object also stores the shared connection and paramstyle; the embedding
threads the connection explicitly instead. -/
structure MigrationList where
  migration_table : String
  items : List Migration
  post_apply : List Migration
deriving DecidableEq, Repr

/-- MigrationList.to_apply (migrations.py:316): the members not already
applied, original order, same table context and hooks. -/
def MigrationList.to_apply (ml : MigrationList) (c : Conn) : MigrationList :=
  { ml with items :=
      ml.items.filter (fun m => !(m.isapplied c ml.migration_table)) }

/-- MigrationList.to_rollback (migrations.py:331): the members already
applied, reversed order, same table context and hooks. -/
def MigrationList.to_rollback (ml : MigrationList) (c : Conn) : MigrationList :=
  { ml with items :=
      (ml.items.filter (fun m => m.isapplied c ml.migration_table)).reverse }

/-- MigrationList.filter (migrations.py:349). -/
def MigrationList.filter (ml : MigrationList) (p : Migration → Bool) : MigrationList :=
  { ml with items := ml.items.filter p }

/-- MigrationList.replace (migrations.py:358). -/
def MigrationList.replace (ml : MigrationList) (newmigrations : List Migration) :
    MigrationList :=
  { ml with items := newmigrations }

/-- Loop body of MigrationList.apply/rollback: run each migration via its
class's method; an uncaught failure aborts the remaining batch. -/
def runMigrations (migration_table : String) (force : Bool) (d : Direction) :
    Conn → List Migration → DbResult
  | c, [] => .ok c
  | c, m :: rest =>
    match (match d with
           | Direction.apply => m.applyVirtual c migration_table force
           | Direction.rollback => m.rollbackVirtual c migration_table force) with
    | .ok c2 => runMigrations migration_table force d c2 rest
    | .err e c2 => .err e c2

/-- MigrationList.apply (migrations.py:362): `if not self: return` (list
truthiness tests only the Normal members), else run `self + self.post_apply`
in order. -/
def MigrationList.apply (ml : MigrationList) (c : Conn) (force : Bool) : DbResult :=
  if ml.items.isEmpty then .ok c
  else runMigrations ml.migration_table force Direction.apply c
         (ml.items ++ ml.post_apply)

/-- MigrationList.rollback (migrations.py:368). -/
def MigrationList.rollback (ml : MigrationList) (c : Conn) (force : Bool) : DbResult :=
  if ml.items.isEmpty then .ok c
  else runMigrations ml.migration_table force Direction.rollback c
         (ml.items ++ ml.post_apply)

/-- A recorded operator decision for one candidate. -/
inductive Choice where
  | yes
  | no
deriving DecidableEq, Repr

/-- One keystroke accepted by the interactive selector
(scripts/migrate.py:51): y n v d a q j k ?.  The `?` key is `help`. -/
inductive Response where
  | y
  | n
  | v
  | d
  | a
  | q
  | j
  | k
  | help
deriving DecidableEq, Repr

/-- prompted_migration (scripts/migrate.py:43): a candidate migration plus
the operator's recorded choice (initially None). -/
structure PromptedMigration where
  migration : Migration
  choice : Option Choice
deriving DecidableEq, Repr

/-- Record a choice on the candidate at the given index
(`mig.choice = response`). -/
def setChoice : List PromptedMigration → Int → Choice → List PromptedMigration
  | [], _, _ => []
  | pm :: rest, i, ch =>
    if i = 0 then { pm with choice := some ch } :: rest
    else pm :: setChoice rest (i - 1) ch

/-- Mark `migrations[position:]` as yes (the `a` command,
scripts/migrate.py:117-120). -/
def markFrom : List PromptedMigration → Int → List PromptedMigration
  | [], _ => []
  | pm :: rest, i =>
    if i ≤ 0 then { pm with choice := some Choice.yes } :: markFrom rest (i - 1)
    else pm :: markFrom rest (i - 1)

/-- Cursor update performed by one loop iteration of prompt_migrations for
each response: `y`/`n` advance (`position += 1`), `j` is
`min(len(migrations), position + 1)`, `k` is `max(0, position - 1)`, and
`v`, `?`, `d`, `a`, `q` leave the cursor where it is. -/
def nextPosition (len position : Int) : Response → Int
  | Response.y => position + 1
  | Response.n => position + 1
  | Response.j => min len (position + 1)
  | Response.k => max 0 (position - 1)
  | _ => position

/-- Main loop of prompt_migrations (scripts/migrate.py:62-125): while the
cursor is inside the candidate list, read the next response and act on it;
`d`, `a` and `q` break out.  If the operator input runs out while the loop
still needs a response, the Python program would block on the prompt; that
is modelled as `none`.  Displaying the default suggestion, the source view
and the help text has no effect on the selection state. -/
def promptLoop : List Response → List PromptedMigration → Int →
    Option (List PromptedMigration)
  | [], pms, position =>
    if position < (pms.length : Int) then none else some pms
  | r :: rest, pms, position =>
    if position < (pms.length : Int) then
      match r with
      | Response.help => promptLoop rest pms position
      | Response.v => promptLoop rest pms position
      | Response.y =>
        promptLoop rest (setChoice pms position Choice.yes)
          (nextPosition (pms.length : Int) position Response.y)
      | Response.n =>
        promptLoop rest (setChoice pms position Choice.no)
          (nextPosition (pms.length : Int) position Response.n)
      | Response.j =>
        promptLoop rest pms (nextPosition (pms.length : Int) position Response.j)
      | Response.k =>
        promptLoop rest pms (nextPosition (pms.length : Int) position Response.k)
      | Response.d => some pms
      | Response.a => some (markFrom pms position)
      | Response.q =>
        some (pms.map (fun pm => { pm with choice := some Choice.no }))
    else some pms

/-- prompt_migrations (scripts/migrate.py:51): wrap each candidate in a
prompted_migration with no recorded choice, run the selection loop from
cursor 0, and return the candidates marked yes, in original order.  The
connection and direction are only used to display default suggestions, so
they do not influence the result. -/
def prompt_migrations (c : Conn) (migrations : MigrationList) (d : Direction)
    (input : List Response) : Option MigrationList :=
  let pms := migrations.items.map (fun m => { migration := m, choice := none })
  match promptLoop input pms 0 with
  | none => none
  | some final =>
    some (migrations.replace
      ((final.filter (fun pm => pm.choice == some Choice.yes)).map
        (fun pm => pm.migration)))

/-- Sequential runner for transactions used to state scenario hypotheses:
run each transaction in the given direction, stopping at the first raise.
This is `processLoop` without the compensation pass. -/
def runSeq (d : Direction) (force : Bool) : Conn → List Transaction → DbResult
  | c, [] => .ok c
  | c, t :: rest =>
    match runDir d t c force with
    | .ok c2 => runSeq d force c2 rest
    | .err e c2 => .err e c2

/-- Dynamic dispatch of a single step in a given direction. -/
def runStepDir (d : Direction) (s : MigrationStep) (c : Conn) (force : Bool) :
    DbResult :=
  match d with
  | .apply => s.apply c force
  | .rollback => s.rollback c force

/-- Sequential runner for steps used to state scenario hypotheses. -/
def stepSeq (d : Direction) (force : Bool) : Conn → List MigrationStep → DbResult
  | c, [] => .ok c
  | c, s :: rest =>
    match runStepDir d s c force with
    | .ok c2 => stepSeq d force c2 rest
    | .err e c2 => .err e c2

/-- Whether an operation is a plain step action (no ledger effect). -/
def Op.isAct : Op → Bool
  | .act _ => true
  | _ => false

/-- A connection whose pending transaction holds no ledger operations. -/
def Conn.clean (c : Conn) : Bool :=
  c.pending.all Op.isAct

/-- One-step transaction with a SQL apply and a SQL rollback action, as
produced by the `step(apply, rollback)` declaration in a migration script. -/
def sqlStep (i : Nat) (ap rb : String) : Transaction :=
  { steps := [{ id := i, _apply := some (StepAction.sql ap),
                _rollback := some (StepAction.sql rb) }],
    ignore_errors := none }

/-- A fresh connection with the given backend failure set. -/
def freshConn (failSql : List String) : Conn :=
  { committed := [], pending := [], commits := 0,
    failSql := failSql, failCall := [] }

/-- Concrete scenario refuting the original C1: two transactions succeed,
the third raises on apply, and compensating the second transaction raises
as well. -/
def cx1mig : Migration :=
  { id := "m-cx1", steps := [sqlStep 0 "ca0" "cr0", sqlStep 1 "ca1" "cr1",
                            sqlStep 2 "ca2" "cr2"],
    source := "", kind := MigrationKind.normal }

/-- Backend for `cx1mig`: applying "ca2" fails, and so does the
compensating rollback "cr1". -/
def cx1conn : Conn := freshConn ["ca2", "cr1"]

/-- Concrete scenario refuting the original C2 (same control path as the
C1 refutation, with its own migration and backend). -/
def cx2mig : Migration :=
  { id := "m-cx2", steps := [sqlStep 0 "da0" "dr0", sqlStep 1 "da1" "dr1",
                            sqlStep 2 "da2" "dr2"],
    source := "", kind := MigrationKind.normal }

/-- Backend for `cx2mig`: applying "da2" fails, and so does the
compensating rollback "dr1". -/
def cx2conn : Conn := freshConn ["da2", "dr1"]

/-- Witness scenario for the amended C1: the second transaction raises on
apply and the single compensating rollback succeeds. -/
def w1mig : Migration :=
  { id := "m-w1", steps := [sqlStep 0 "wa0" "wr0", sqlStep 1 "wa1" "wr1"],
    source := "", kind := MigrationKind.normal }

/-- Backend for `w1mig`: only applying "wa1" fails. -/
def w1conn : Conn := freshConn ["wa1"]

/-- Witness scenario for the amended C2: reuses the shape of `cx1mig` with
fresh names. -/
def w2mig : Migration :=
  { id := "m-w2", steps := [sqlStep 0 "ea0" "er0", sqlStep 1 "ea1" "er1",
                            sqlStep 2 "ea2" "er2"],
    source := "", kind := MigrationKind.normal }

/-- Backend for `w2mig`: applying "ea2" fails and compensating "er1" fails. -/
def w2conn : Conn := freshConn ["ea2", "er1"]

/-- Transaction for the C3 witness: second step fails on apply, policy
`ignore_errors='apply'`. -/
def w3txn : Transaction :=
  { steps := [{ id := 0, _apply := some (StepAction.sql "ta0"),
                _rollback := some (StepAction.sql "tr0") },
              { id := 1, _apply := some (StepAction.sql "ta1"),
                _rollback := some (StepAction.sql "tr1") }],
    ignore_errors := some IgnoreErrors.apply }

/-- Backend for `w3txn`: applying "ta1" fails. -/
def w3conn : Conn := freshConn ["ta1"]

/-- Trivial normal migration used by ledger-membership witnesses. -/
def w4mig : Migration :=
  { id := "m-w4", steps := [], source := "", kind := MigrationKind.normal }

/-- Fresh failure-free backend. -/
def w4conn : Conn := freshConn []

/-- A normal migration with the given id and no steps. -/
def mkMig (s : String) : Migration :=
  { id := s, steps := [], source := "", kind := MigrationKind.normal }

/-- A post-apply hook migration with one SQL step. -/
def hookMig : Migration :=
  { id := "post-apply", steps := [sqlStep 0 "ha0" "hr0"],
    source := "", kind := MigrationKind.postApplyHook }

/-- Three-candidate list for the interactive-selector example. -/
def exList3 : MigrationList :=
  { migration_table := "t", items := [mkMig "01", mkMig "02", mkMig "03"],
    post_apply := [] }

/-- List with no normal members but one hook, for the empty no-op witness. -/
def emptyWithHook : MigrationList :=
  { migration_table := "t", items := [], post_apply := [hookMig] }

/-- Step whose apply action is the empty string and whose rollback action
is also the empty string, for the skip-condition witness. -/
def w9step : MigrationStep :=
  { id := 7, _apply := some (StepAction.sql ""), _rollback := some (StepAction.sql "") }

/-- Single prompted candidate for the cursor-invariant witness. -/
def w10pms : List PromptedMigration :=
  [{ migration := mkMig "10", choice := none }]

/-- Relation between connection states used to track that an execution
fragment can neither add nor remove ledger rows: if the pending
transaction of `c` holds no ledger operations then the same is true of
`c2`, and every migration table shows the same rows through `c2` as
through `c`. -/
def LedgerSame (c c2 : Conn) : Prop :=
  c.clean = true →
    c2.clean = true ∧ ∀ tb, ledgerRows tb c2.allOps = ledgerRows tb c.allOps

/-- Final connection state of the `cx1mig` run: both succeeding apply
actions are committed; "cr1" raised during compensation, so "cr0" was
never executed. -/
def cx1final : Conn :=
  { committed := [Op.act (StepAction.sql "ca0"), Op.act (StepAction.sql "ca1")],
    pending := [], commits := 2, failSql := ["ca2", "cr1"], failCall := [] }

/-- Final connection state of the `cx2mig` run. -/
def cx2final : Conn :=
  { committed := [Op.act (StepAction.sql "da0"), Op.act (StepAction.sql "da1")],
    pending := [], commits := 2, failSql := ["da2", "dr1"], failCall := [] }

/-- Final connection state of the `w1mig` run: the first transaction was
applied and then compensated. -/
def w1final : Conn :=
  { committed := [Op.act (StepAction.sql "wa0"), Op.act (StepAction.sql "wr0")],
    pending := [], commits := 2, failSql := ["wa1"], failCall := [] }

/-- Final connection state of the `w2mig` run. -/
def w2final : Conn :=
  { committed := [Op.act (StepAction.sql "ea0"), Op.act (StepAction.sql "ea1")],
    pending := [], commits := 2, failSql := ["ea2", "er1"], failCall := [] }

/-- Connection state after successfully applying `w4mig` on `w4conn`. -/
def w4applied : Conn :=
  { committed := [Op.ledgerInsert "t" "m-w4"], pending := [], commits := 1,
    failSql := [], failCall := [] }

/-- Singleton migration list holding `w4mig`. -/
def w4list : MigrationList :=
  { migration_table := "t", items := [w4mig], post_apply := [] }

@[simp] theorem DbResult.conn_ok (c : Conn) : (DbResult.ok c).conn = c := rfl

@[simp] theorem DbResult.conn_err (e : StepAction) (c : Conn) :
    (DbResult.err e c).conn = c := rfl

theorem ledgerRows_append (tbl : String) (ops1 ops2 : List Op) :
    ledgerRows tbl (ops1 ++ ops2) =
      ops2.foldl (applyLedgerOp tbl) (ledgerRows tbl ops1) := by
  simp [ledgerRows, List.foldl_append]

theorem foldl_ledger_acts (tbl : String) (ops : List Op) :
    ∀ rows, (∀ op ∈ ops, op.isAct = true) →
      ops.foldl (applyLedgerOp tbl) rows = rows := by
  induction ops with
  | nil => intro rows _; rfl
  | cons op rest ih =>
    intro rows h
    have hop := h op (by simp)
    cases op with
    | act a =>
      simpa [applyLedgerOp] using ih rows (fun o ho => h o (by simp [ho]))
    | ledgerInsert t i => simp [Op.isAct] at hop
    | ledgerDelete t i => simp [Op.isAct] at hop

theorem ledgerRows_acts_append (tbl : String) (ops1 ops2 : List Op)
    (h : ∀ op ∈ ops2, op.isAct = true) :
    ledgerRows tbl (ops1 ++ ops2) = ledgerRows tbl ops1 := by
  rw [ledgerRows_append]; exact foldl_ledger_acts tbl ops2 _ h

theorem ledgerRows_concat (tbl : String) (ops : List Op) (op : Op) :
    ledgerRows tbl (ops ++ [op]) = applyLedgerOp tbl (ledgerRows tbl ops) op := by
  simp [ledgerRows, List.foldl_append]

theorem clean_acts {c : Conn} (h : c.clean = true) :
    ∀ op ∈ c.pending, op.isAct = true := by
  simpa [Conn.clean, List.all_eq_true] using h

theorem ledgerSame_refl (c : Conn) : LedgerSame c c :=
  fun h => ⟨h, fun _ => Eq.refl _⟩

theorem LedgerSame.trans {a b c : Conn}
    (h1 : LedgerSame a b) (h2 : LedgerSame b c) : LedgerSame a c := by
  intro ha
  obtain ⟨hb, hab⟩ := h1 ha
  obtain ⟨hc, hbc⟩ := h2 hb
  exact ⟨hc, fun tb => (hbc tb).trans (hab tb)⟩

theorem ledgerSame_commit (c : Conn) : LedgerSame c c.commit := by
  intro h
  refine ⟨by simp [Conn.clean, Conn.commit], fun tb => ?_⟩
  simp [Conn.allOps, Conn.commit]

theorem ledgerSame_rollback (c : Conn) : LedgerSame c c.rollback := by
  intro h
  refine ⟨by simp [Conn.clean, Conn.rollback], fun tb => ?_⟩
  simp only [Conn.allOps, Conn.rollback]
  rw [List.append_nil]
  exact (ledgerRows_acts_append tb c.committed c.pending (clean_acts h)).symm

theorem ledgerSame_pendAct (c : Conn) (a : StepAction) :
    LedgerSame c { c with pending := c.pending ++ [Op.act a] } := by
  intro h
  refine ⟨?_, fun tb => ?_⟩
  · rw [Conn.clean, List.all_eq_true]
    intro op hop
    rcases List.mem_append.mp hop with hin | hin
    · exact clean_acts h op hin
    · simp only [List.mem_singleton] at hin
      simp [hin, Op.isAct]
  · simp only [Conn.allOps]
    rw [← List.append_assoc]
    exact ledgerRows_acts_append tb _ [Op.act a] (by simp [Op.isAct])

theorem ledgerSame_execAct (a : StepAction) (c : Conn) :
    LedgerSame c ((execAct a c).conn) := by
  unfold execAct
  by_cases h : a.fails c
  · simp [h]; exact ledgerSame_refl c
  · simp [h]; exact ledgerSame_pendAct c a

theorem ledgerSame_step_apply (s : MigrationStep) (c : Conn) (force : Bool) :
    LedgerSame c ((s.apply c force).conn) := by
  unfold MigrationStep.apply
  cases h : s._apply with
  | none => simp [actionTruthy]; exact ledgerSame_refl c
  | some a =>
    by_cases ht : actionTruthy (some a) = true
    · simp [ht]; exact ledgerSame_execAct a c
    · simp [ht]; exact ledgerSame_refl c

theorem ledgerSame_step_rollback (s : MigrationStep) (c : Conn) (force : Bool) :
    LedgerSame c ((s.rollback c force).conn) := by
  unfold MigrationStep.rollback
  cases h : s._rollback with
  | none => exact ledgerSame_refl c
  | some a => exact ledgerSame_execAct a c

theorem ledgerSame_applyLoop (t : Transaction) (force : Bool) :
    ∀ steps (c : Conn), LedgerSame c ((t.applyLoop force c steps).conn) := by
  intro steps
  induction steps with
  | nil => intro c; simpa [Transaction.applyLoop] using ledgerSame_commit c
  | cons s rest ih =>
    intro c
    have hstep := ledgerSame_step_apply s c force
    simp only [Transaction.applyLoop]
    cases h : s.apply c force with
    | ok c2 =>
      rw [h] at hstep
      exact LedgerSame.trans hstep (ih c2)
    | err e c2 =>
      rw [h] at hstep
      have hroll := LedgerSame.trans hstep (ledgerSame_rollback c2)
      by_cases hsw : t.swallowsApply force = true <;> simp [hsw] <;> exact hroll

theorem ledgerSame_rollbackLoop (t : Transaction) (force : Bool) :
    ∀ steps (c : Conn), LedgerSame c ((t.rollbackLoop force c steps).conn) := by
  intro steps
  induction steps with
  | nil => intro c; simpa [Transaction.rollbackLoop] using ledgerSame_commit c
  | cons s rest ih =>
    intro c
    have hstep := ledgerSame_step_rollback s c force
    simp only [Transaction.rollbackLoop]
    cases h : s.rollback c force with
    | ok c2 =>
      rw [h] at hstep
      exact LedgerSame.trans hstep (ih c2)
    | err e c2 =>
      rw [h] at hstep
      have hroll := LedgerSame.trans hstep (ledgerSame_rollback c2)
      by_cases hsw : t.swallowsRollback force = true <;> simp [hsw] <;> exact hroll

theorem ledgerSame_runDir (d : Direction) (t : Transaction) (c : Conn)
    (force : Bool) : LedgerSame c ((runDir d t c force).conn) := by
  cases d with
  | apply => exact ledgerSame_applyLoop t force t.steps c
  | rollback => exact ledgerSame_rollbackLoop t force t.steps.reverse c

theorem ledgerSame_compensateLoop (rev : Direction) :
    ∀ ts (c : Conn), LedgerSame c (compensateLoop rev c ts) := by
  intro ts
  induction ts with
  | nil => intro c; exact ledgerSame_refl c
  | cons t rest ih =>
    intro c
    have hrun := ledgerSame_runDir rev t c false
    simp only [compensateLoop]
    cases h : runDir rev t c false with
    | ok c2 =>
      rw [h] at hrun
      exact LedgerSame.trans hrun (ih c2)
    | err e c2 =>
      rw [h] at hrun
      exact hrun

theorem ledgerSame_processLoop (d : Direction) (force : Bool) :
    ∀ steps (c : Conn) executed,
      LedgerSame c ((processLoop d force c executed steps).conn) := by
  intro steps
  induction steps with
  | nil => intro c executed; exact ledgerSame_refl c
  | cons t rest ih =>
    intro c executed
    have hrun := ledgerSame_runDir d t c force
    simp only [processLoop]
    cases h : runDir d t c force with
    | ok c2 =>
      rw [h] at hrun
      exact LedgerSame.trans hrun (ih c2 (executed ++ [t]))
    | err e c2 =>
      rw [h] at hrun
      have h2 := LedgerSame.trans hrun (ledgerSame_rollback c2)
      exact LedgerSame.trans h2
        (ledgerSame_compensateLoop d.reverse executed.reverse c2.rollback)

theorem ledgerSame_process_steps (steps : List Transaction) (d : Direction)
    (force : Bool) (c : Conn) :
    LedgerSame c ((process_steps steps d force c).conn) :=
  ledgerSame_processLoop d force steps c []

theorem processLoop_append_ok (d : Direction) (force : Bool)
    (rest : List Transaction) :
    ∀ (pre : List Transaction) (c c1 : Conn) (executed : List Transaction),
      runSeq d force c pre = .ok c1 →
      processLoop d force c executed (pre ++ rest) =
        processLoop d force c1 (executed ++ pre) rest := by
  intro pre
  induction pre with
  | nil =>
    intro c c1 executed h
    simp only [runSeq] at h
    cases h
    simp
  | cons t pre2 ih =>
    intro c c1 executed h
    simp only [runSeq] at h
    cases hrun : runDir d t c force with
    | ok c2 =>
      rw [hrun] at h
      simp only [List.cons_append, processLoop]
      rw [hrun]
      show processLoop d force c2 (executed ++ [t]) (pre2 ++ rest) =
        processLoop d force c1 (executed ++ t :: pre2) rest
      rw [ih c2 c1 (executed ++ [t]) h]
      congr 1
      simp
    | err e c2 => rw [hrun] at h; cases h

theorem processLoop_err (d : Direction) (force : Bool) (c c2 : Conn)
    (executed rest : List Transaction) (t : Transaction) (e : StepAction)
    (h : runDir d t c force = .err e c2) :
    processLoop d force c executed (t :: rest) =
      .err e (compensateLoop d.reverse c2.rollback executed.reverse) := by
  simp only [processLoop]
  rw [h]

theorem compensateLoop_ok (rev : Direction) :
    ∀ (ts : List Transaction) (c c1 : Conn),
      runSeq rev false c ts = .ok c1 → compensateLoop rev c ts = c1 := by
  intro ts
  induction ts with
  | nil =>
    intro c c1 h
    simp only [runSeq] at h
    cases h
    rfl
  | cons t rest ih =>
    intro c c1 h
    simp only [runSeq] at h
    cases hrun : runDir rev t c false with
    | ok c2 =>
      rw [hrun] at h
      simp only [compensateLoop]
      rw [hrun]
      exact ih c2 c1 h
    | err e c2 => rw [hrun] at h; cases h

theorem compensateLoop_stop (rev : Direction) (tb : Transaction)
    (e2 : StepAction) (q2 : List Transaction) :
    ∀ (q1 : List Transaction) (c c3 c4 : Conn),
      runSeq rev false c q1 = .ok c3 →
      runDir rev tb c3 false = .err e2 c4 →
      compensateLoop rev c (q1 ++ tb :: q2) = c4 := by
  intro q1
  induction q1 with
  | nil =>
    intro c c3 c4 h1 h2
    simp only [runSeq] at h1
    cases h1
    simp only [List.nil_append, compensateLoop]
    rw [h2]
  | cons t rest ih =>
    intro c c3 c4 h1 h2
    simp only [runSeq] at h1
    cases hrun : runDir rev t c false with
    | ok c2 =>
      rw [hrun] at h1
      simp only [List.cons_append, compensateLoop]
      rw [hrun]
      exact ih c2 c3 c4 h1 h2
    | err e c2 => rw [hrun] at h1; cases h1

theorem applyLoop_append (t : Transaction) (force : Bool)
    (rest : List MigrationStep) :
    ∀ (pre : List MigrationStep) (c c1 : Conn),
      stepSeq Direction.apply force c pre = .ok c1 →
      t.applyLoop force c (pre ++ rest) = t.applyLoop force c1 rest := by
  intro pre
  induction pre with
  | nil =>
    intro c c1 h
    simp only [stepSeq] at h
    cases h
    simp
  | cons s pre2 ih =>
    intro c c1 h
    simp only [stepSeq, runStepDir] at h
    cases hrun : s.apply c force with
    | ok c2 =>
      rw [hrun] at h
      simp only [List.cons_append, Transaction.applyLoop]
      rw [hrun]
      exact ih c2 c1 h
    | err e c2 => rw [hrun] at h; cases h

theorem rollbackLoop_append (t : Transaction) (force : Bool)
    (rest : List MigrationStep) :
    ∀ (pre : List MigrationStep) (c c1 : Conn),
      stepSeq Direction.rollback force c pre = .ok c1 →
      t.rollbackLoop force c (pre ++ rest) = t.rollbackLoop force c1 rest := by
  intro pre
  induction pre with
  | nil =>
    intro c c1 h
    simp only [stepSeq] at h
    cases h
    simp
  | cons s pre2 ih =>
    intro c c1 h
    simp only [stepSeq, runStepDir] at h
    cases hrun : s.rollback c force with
    | ok c2 =>
      rw [hrun] at h
      simp only [List.cons_append, Transaction.rollbackLoop]
      rw [hrun]
      exact ih c2 c1 h
    | err e c2 => rw [hrun] at h; cases h

theorem commits_execAct (a : StepAction) (c : Conn) :
    ((execAct a c).conn).commits = c.commits := by
  unfold execAct
  by_cases h : a.fails c <;> simp [h]

theorem commits_step_apply (s : MigrationStep) (c : Conn) (force : Bool) :
    ((s.apply c force).conn).commits = c.commits := by
  unfold MigrationStep.apply
  cases h : s._apply with
  | none => simp [actionTruthy]
  | some a =>
    by_cases ht : actionTruthy (some a) = true
    · simp only [ht, if_true]; exact commits_execAct a c
    · simp [ht]

theorem commits_step_rollback (s : MigrationStep) (c : Conn) (force : Bool) :
    ((s.rollback c force).conn).commits = c.commits := by
  unfold MigrationStep.rollback
  cases h : s._rollback with
  | none => simp
  | some a => exact commits_execAct a c

theorem commits_runStepDir (d : Direction) (s : MigrationStep) (c : Conn)
    (force : Bool) : ((runStepDir d s c force).conn).commits = c.commits := by
  cases d with
  | apply => exact commits_step_apply s c force
  | rollback => exact commits_step_rollback s c force

theorem commits_stepSeq (d : Direction) (force : Bool) :
    ∀ (l : List MigrationStep) (c : Conn),
      ((stepSeq d force c l).conn).commits = c.commits := by
  intro l
  induction l with
  | nil => intro c; rfl
  | cons s rest ih =>
    intro c
    have hstep := commits_runStepDir d s c force
    simp only [stepSeq]
    cases h : runStepDir d s c force with
    | ok c2 =>
      rw [h] at hstep
      simp only [DbResult.conn_ok] at hstep
      rw [ih c2, hstep]
    | err e c2 =>
      rw [h] at hstep
      simpa using hstep

theorem runMigrations_append (migration_table : String) (force : Bool)
    (d : Direction) (ys : List Migration) :
    ∀ (xs : List Migration) (c : Conn),
      runMigrations migration_table force d c (xs ++ ys) =
        (match runMigrations migration_table force d c xs with
         | .ok c2 => runMigrations migration_table force d c2 ys
         | .err e c2 => .err e c2) := by
  intro xs
  induction xs with
  | nil => intro c; simp [runMigrations]
  | cons m rest ih =>
    intro c
    simp only [List.cons_append, runMigrations]
    cases hrun : (match d with
                  | Direction.apply => m.applyVirtual c migration_table force
                  | Direction.rollback => m.rollbackVirtual c migration_table force) with
    | ok c2 => exact ih c2
    | err e c2 => rfl

theorem runMigrations_hooks_force (migration_table : String) (d : Direction)
    (force force2 : Bool) :
    ∀ (hooks : List Migration) (c : Conn),
      (∀ h ∈ hooks, h.kind = MigrationKind.postApplyHook) →
      runMigrations migration_table force d c hooks =
        runMigrations migration_table force2 d c hooks := by
  intro hooks
  induction hooks with
  | nil => intro c _; rfl
  | cons m rest ih =>
    intro c hk
    have hm := hk m (by simp)
    cases d with
    | apply =>
      simp only [runMigrations, Migration.applyVirtual, hm,
                 PostApplyHookMigration.apply]
      cases hrun : process_steps m.steps Direction.apply true c with
      | ok c2 => exact ih c2 (fun h hh => hk h (by simp [hh]))
      | err e c2 => rfl
    | rollback =>
      simp only [runMigrations, Migration.rollbackVirtual, hm,
                 PostApplyHookMigration.rollback]
      cases hrun : process_steps m.steps.reverse Direction.rollback true c with
      | ok c2 => exact ih c2 (fun h hh => hk h (by simp [hh]))
      | err e c2 => rfl

theorem setChoice_map (ch : Choice) :
    ∀ (pms : List PromptedMigration) (i : Int),
      (setChoice pms i ch).map (fun pm => pm.migration) =
        pms.map (fun pm => pm.migration) := by
  intro pms
  induction pms with
  | nil => intro i; rfl
  | cons pm rest ih =>
    intro i
    simp only [setChoice]
    by_cases h : i = 0
    · simp [h]
    · simp [h, ih]

theorem markFrom_map :
    ∀ (pms : List PromptedMigration) (i : Int),
      (markFrom pms i).map (fun pm => pm.migration) =
        pms.map (fun pm => pm.migration) := by
  intro pms
  induction pms with
  | nil => intro i; rfl
  | cons pm rest ih =>
    intro i
    simp only [markFrom]
    by_cases h : i ≤ 0
    · simp [h, ih]
    · simp [h, ih]

theorem promptLoop_migrations :
    ∀ (input : List Response) (pms : List PromptedMigration) (position : Int)
      (final : List PromptedMigration),
      promptLoop input pms position = some final →
      final.map (fun pm => pm.migration) = pms.map (fun pm => pm.migration) := by
  intro input
  induction input with
  | nil =>
    intro pms position final h
    simp only [promptLoop] at h
    by_cases hp : position < (pms.length : Int)
    · simp [hp] at h
    · simp [hp] at h; rw [← h]
  | cons r rest ih =>
    intro pms position final h
    simp only [promptLoop] at h
    by_cases hp : position < (pms.length : Int)
    · rw [if_pos hp] at h
      cases r with
      | help => exact ih pms position final h
      | v => exact ih pms position final h
      | y => rw [ih _ _ final h]; exact setChoice_map Choice.yes pms position
      | n => rw [ih _ _ final h]; exact setChoice_map Choice.no pms position
      | j => exact ih pms _ final h
      | k => exact ih pms _ final h
      | d => cases h; rfl
      | a => cases h; exact markFrom_map pms position
      | q => cases h; simp
    · rw [if_neg hp] at h; cases h; rfl

theorem map_mk_migration (l : List Migration) :
    (l.map (fun m => ({ migration := m, choice := none } : PromptedMigration))).map
      (fun pm => pm.migration) = l := by
  induction l with
  | nil => rfl
  | cons a rest ih => simp [ih]

theorem count_after_insert (tbl i : String) (ops : List Op) :
    0 < (ledgerRows tbl (ops ++ [Op.ledgerInsert tbl i])).count i := by
  rw [ledgerRows_concat]
  simp only [applyLedgerOp, beq_self_eq_true, if_true, List.count_append]
  simp [List.count_cons]

theorem count_after_delete (tbl i : String) (ops : List Op) :
    (ledgerRows tbl (ops ++ [Op.ledgerDelete tbl i])).count i = 0 := by
  rw [ledgerRows_concat]
  simp only [applyLedgerOp, beq_self_eq_true, if_true]
  rw [List.count_eq_zero]
  intro hmem
  have := List.of_mem_filter hmem
  simp at this

theorem setChoice_length (ch : Choice) :
    ∀ (pms : List PromptedMigration) (i : Int),
      (setChoice pms i ch).length = pms.length := by
  intro pms
  induction pms with
  | nil => intro i; rfl
  | cons pm rest ih =>
    intro i
    simp only [setChoice]
    by_cases h : i = 0 <;> simp [h, ih]

/-- C9: MigrationStep.apply and MigrationStep.rollback use different skip
conditions: apply is a silent no-op whenever the apply action is falsy
(None or the empty string), while rollback is a no-op only when the
rollback action is exactly None — a step with an empty-string rollback
action still executes that empty string as a SQL statement on rollback
(observably: the connection gains a pending operation, or the statement
raises), whereas an empty-string apply action executes nothing. -/
theorem c9_step_skip_conditions (s : MigrationStep) (c : Conn) (force : Bool) :
    ((s._apply = none ∨ s._apply = some (StepAction.sql "")) →
        s.apply c force = DbResult.ok c)
    ∧ (s._rollback = none → s.rollback c force = DbResult.ok c)
    ∧ (s._rollback = some (StepAction.sql "") →
        s.rollback c force = execAct (StepAction.sql "") c)
    ∧ (s._rollback = some (StepAction.sql "") → c.failSql.contains "" = false →
        s.rollback c force =
          DbResult.ok { c with pending := c.pending ++ [Op.act (StepAction.sql "")] }
        ∧ s.rollback c force ≠ DbResult.ok c) := by
  refine ⟨?_, ?_, ?_, ?_⟩
  · intro h
    rcases h with h | h <;> simp [MigrationStep.apply, h, actionTruthy]
  · intro h
    simp [MigrationStep.rollback, h]
  · intro h
    simp [MigrationStep.rollback, h]
  · intro h hfail
    have hnm : "" ∉ c.failSql := by simpa using hfail
    have hrun : s.rollback c force =
        DbResult.ok { c with pending := c.pending ++ [Op.act (StepAction.sql "")] } := by
      simp [MigrationStep.rollback, h, execAct, StepAction.fails, hnm]
    refine ⟨hrun, ?_⟩
    rw [hrun]
    intro heq
    have h2 : ({ c with pending := c.pending ++ [Op.act (StepAction.sql "")] } : Conn) = c := by
      injection heq
    have hp := congrArg Conn.pending h2
    have hlen := congrArg List.length hp
    simp only [List.length_append, List.length_singleton] at hlen
    omega

/-- C9 witness: a step whose apply and rollback actions are both the empty
string is a no-op on apply but executes a statement on rollback. -/
theorem c9_step_skip_conditions_witness :
    MigrationStep.apply w9step w4conn false = DbResult.ok w4conn
    ∧ MigrationStep.rollback w9step w4conn false ≠ DbResult.ok w4conn := by
  have h := c9_step_skip_conditions w9step w4conn false
  exact ⟨h.1 (Or.inr rfl), (h.2.2.2 rfl rfl).2⟩

/-- C5: to_apply returns a new MigrationList containing exactly the members
with no ledger entry, in the original list order (a sublist of the
original), and to_rollback exactly the members with a ledger entry, in the
reverse of the original order; both carry the same table context and hook
set, and the source list is not mutated (the views are fresh values). -/
theorem c5_derived_views (ml : MigrationList) (c : Conn) (m : Migration) :
    (m ∈ (ml.to_apply c).items ↔
        m ∈ ml.items ∧ m.isapplied c ml.migration_table = false)
    ∧ (m ∈ (ml.to_rollback c).items ↔
        m ∈ ml.items ∧ m.isapplied c ml.migration_table = true)
    ∧ (ml.to_apply c).items.Sublist ml.items
    ∧ (ml.to_rollback c).items.reverse.Sublist ml.items
    ∧ (ml.to_apply c).migration_table = ml.migration_table
    ∧ (ml.to_rollback c).migration_table = ml.migration_table
    ∧ (ml.to_apply c).post_apply = ml.post_apply
    ∧ (ml.to_rollback c).post_apply = ml.post_apply := by
  refine ⟨?_, ?_, ?_, ?_, rfl, rfl, rfl, rfl⟩
  · simp [MigrationList.to_apply, List.mem_filter]
  · simp [MigrationList.to_rollback, List.mem_filter]
  · exact List.filter_sublist ml.items
  · rw [MigrationList.to_rollback, List.reverse_reverse]
    exact List.filter_sublist ml.items

/-- C5 witness: concrete instance on the singleton list holding `w4mig`
and a fresh connection (no ledger rows): the migration is pending. -/
theorem c5_derived_views_witness :
    w4mig ∈ (w4list.to_apply w4conn).items
    ∧ w4mig ∉ (w4list.to_rollback w4conn).items := by
  have h := c5_derived_views w4list w4conn w4mig
  constructor
  · exact h.1.mpr ⟨by decide, by decide⟩
  · intro hmem
    have := (h.2.1.mp hmem).2
    simp [w4mig, w4conn, freshConn, Migration.isapplied, Conn.allOps,
          ledgerRows] at this

/-- C3: on a step failure inside Transaction.apply the current database
transaction is first rolled back; then, if force is true or ignore_errors
is 'apply' or 'all', apply returns normally without committing (the
remaining steps are never executed and the commit counter is unchanged),
otherwise the failure propagates; if every step succeeds exactly one
commit is issued.  Transaction.rollback is the mirror over the reversed
step list with the policy keyed on 'rollback'/'all'. -/
theorem c3_transaction_error_policy (t : Transaction) (c : Conn) (force : Bool) :
    (∀ pre s post c1 e c2, t.steps = pre ++ s :: post →
        stepSeq Direction.apply force c pre = DbResult.ok c1 →
        s.apply c1 force = DbResult.err e c2 →
          t.apply c force =
            (if t.swallowsApply force then DbResult.ok c2.rollback
             else DbResult.err e c2.rollback)
          ∧ c2.rollback.commits = c.commits)
    ∧ (∀ c1, stepSeq Direction.apply force c t.steps = DbResult.ok c1 →
        t.apply c force = DbResult.ok c1.commit
        ∧ c1.commit.commits = c.commits + 1)
    ∧ (∀ pre s post c1 e c2, t.steps.reverse = pre ++ s :: post →
        stepSeq Direction.rollback force c pre = DbResult.ok c1 →
        s.rollback c1 force = DbResult.err e c2 →
          t.rollback c force =
            (if t.swallowsRollback force then DbResult.ok c2.rollback
             else DbResult.err e c2.rollback)
          ∧ c2.rollback.commits = c.commits)
    ∧ (∀ c1, stepSeq Direction.rollback force c t.steps.reverse = DbResult.ok c1 →
        t.rollback c force = DbResult.ok c1.commit
        ∧ c1.commit.commits = c.commits + 1) := by
  refine ⟨?_, ?_, ?_, ?_⟩
  · intro pre s post c1 e c2 hsteps hpre hfail
    constructor
    · rw [Transaction.apply, hsteps,
          applyLoop_append t force (s :: post) pre c c1 hpre]
      simp only [Transaction.applyLoop]
      rw [hfail]
    · have h1 : c1.commits = c.commits := by
        have := commits_stepSeq Direction.apply force pre c
        rw [hpre] at this
        simpa using this
      have h2 : c2.commits = c1.commits := by
        have := commits_step_apply s c1 force
        rw [hfail] at this
        simpa using this
      simp [Conn.rollback, h1, h2]
  · intro c1 h
    have h2 := applyLoop_append t force [] t.steps c c1 h
    rw [List.append_nil] at h2
    have h1 : c1.commits = c.commits := by
      have := commits_stepSeq Direction.apply force t.steps c
      rw [h] at this
      simpa using this
    exact ⟨by rw [Transaction.apply, h2]; rfl, by simp [Conn.commit, h1]⟩
  · intro pre s post c1 e c2 hsteps hpre hfail
    constructor
    · rw [Transaction.rollback, hsteps,
          rollbackLoop_append t force (s :: post) pre c c1 hpre]
      simp only [Transaction.rollbackLoop]
      rw [hfail]
    · have h1 : c1.commits = c.commits := by
        have := commits_stepSeq Direction.rollback force pre c
        rw [hpre] at this
        simpa using this
      have h2 : c2.commits = c1.commits := by
        have := commits_step_rollback s c1 force
        rw [hfail] at this
        simpa using this
      simp [Conn.rollback, h1, h2]
  · intro c1 h
    have h2 := rollbackLoop_append t force [] t.steps.reverse c c1 h
    rw [List.append_nil] at h2
    have h1 : c1.commits = c.commits := by
      have := commits_stepSeq Direction.rollback force t.steps.reverse c
      rw [h] at this
      simpa using this
    exact ⟨by rw [Transaction.rollback, h2]; rfl, by simp [Conn.commit, h1]⟩

/-- C3 witness: in `w3txn` (policy ignore_errors='apply') the second step
fails on apply; the transaction rolls back its partial work and reports
success without committing, restoring the starting connection state. -/
theorem c3_transaction_error_policy_witness :
    Transaction.apply w3txn w3conn false = DbResult.ok w3conn := by
  have h := (c3_transaction_error_policy w3txn w3conn false).1
    [{ id := 0, _apply := some (StepAction.sql "ta0"),
       _rollback := some (StepAction.sql "tr0") }]
    { id := 1, _apply := some (StepAction.sql "ta1"),
      _rollback := some (StepAction.sql "tr1") }
    []
    { committed := [], pending := [Op.act (StepAction.sql "ta0")], commits := 0,
      failSql := ["ta1"], failCall := [] }
    (StepAction.sql "ta1")
    { committed := [], pending := [Op.act (StepAction.sql "ta0")], commits := 0,
      failSql := ["ta1"], failCall := [] }
    rfl (by decide) (by decide)
  exact h.1.trans (by decide)

/-- C4: immediately after a successful Migration.apply the predicate
isapplied returns true on the resulting connection state, and immediately
after a successful Migration.rollback it returns false; to_apply and
to_rollback computed on that state reflect the new membership with no
stale caching. -/
theorem c4_ledger_membership (m : Migration) (c c2 : Conn) (tbl : String)
    (force : Bool) (ml : MigrationList) (htbl : ml.migration_table = tbl) :
    (m.apply c tbl force = DbResult.ok c2 →
        m.isapplied c2 tbl = true
        ∧ (m ∈ ml.items →
            m ∉ (ml.to_apply c2).items ∧ m ∈ (ml.to_rollback c2).items))
    ∧ (m.rollback c tbl force = DbResult.ok c2 →
        m.isapplied c2 tbl = false
        ∧ (m ∈ ml.items →
            m ∈ (ml.to_apply c2).items ∧ m ∉ (ml.to_rollback c2).items)) := by
  constructor
  · intro h
    have happ : m.isapplied c2 tbl = true := by
      rw [Migration.apply] at h
      cases hps : process_steps m.steps Direction.apply force c with
      | err e c0 => rw [hps] at h; cases h
      | ok c0 =>
        rw [hps] at h
        have hc2 : c2 = Conn.commit
            { c0 with pending := c0.pending ++ [Op.ledgerInsert tbl m.id] } := by
          cases h; rfl
        rw [Migration.isapplied, decide_eq_true_eq, hc2]
        simp only [Conn.allOps, Conn.commit, List.append_nil, ← List.append_assoc]
        exact count_after_insert tbl m.id (c0.committed ++ c0.pending)
    refine ⟨happ, fun hmem => ⟨?_, ?_⟩⟩
    · intro hin
      rw [MigrationList.to_apply] at hin
      have := (List.mem_filter.mp hin).2
      rw [htbl, happ] at this
      simp at this
    · rw [MigrationList.to_rollback]
      simp only [List.mem_reverse]
      exact List.mem_filter.mpr ⟨hmem, by rw [htbl, happ]⟩
  · intro h
    have happ : m.isapplied c2 tbl = false := by
      rw [Migration.rollback] at h
      cases hps : process_steps m.steps.reverse Direction.rollback force c with
      | err e c0 => rw [hps] at h; cases h
      | ok c0 =>
        rw [hps] at h
        have hc2 : c2 = Conn.commit
            { c0 with pending := c0.pending ++ [Op.ledgerDelete tbl m.id] } := by
          cases h; rfl
        rw [Migration.isapplied, decide_eq_false_iff_not, hc2]
        simp only [Conn.allOps, Conn.commit, List.append_nil, ← List.append_assoc]
        rw [count_after_delete tbl m.id (c0.committed ++ c0.pending)]
        omega
    refine ⟨happ, fun hmem => ⟨?_, ?_⟩⟩
    · rw [MigrationList.to_apply]
      exact List.mem_filter.mpr ⟨hmem, by rw [htbl, happ]; rfl⟩
    · intro hin
      rw [MigrationList.to_rollback] at hin
      rw [List.mem_reverse] at hin
      have := (List.mem_filter.mp hin).2
      rw [htbl, happ] at this
      cases this

/-- C4 witness: applying the trivial migration `w4mig` on a fresh
connection yields the state `w4applied`, on which isapplied is true and
the migration has moved from the to_apply view to the to_rollback view. -/
theorem c4_ledger_membership_witness :
    Migration.isapplied w4mig w4applied "t" = true
    ∧ w4mig ∉ (w4list.to_apply w4applied).items
    ∧ w4mig ∈ (w4list.to_rollback w4applied).items := by
  have h := (c4_ledger_membership w4mig w4conn w4applied "t" false w4list rfl).1
    (by decide)
  exact ⟨h.1, (h.2 (by decide)).1, (h.2 (by decide)).2⟩

/-- C8: PostApplyHookMigration.apply and .rollback run the steps with
force=true regardless of the caller's force argument, and neither
operation inserts into or deletes from any migration table: starting from
a connection whose open transaction holds no ledger writes, the ledger
contents of every migration table are unchanged, whether the run
succeeds or raises. -/
theorem c8_hook_force_and_ledger_frame (m : Migration) (c : Conn)
    (tbl : String) (force : Bool) (hclean : c.clean = true) :
    PostApplyHookMigration.apply m c tbl force =
        process_steps m.steps Direction.apply true c
    ∧ PostApplyHookMigration.rollback m c tbl force =
        process_steps m.steps.reverse Direction.rollback true c
    ∧ PostApplyHookMigration.apply m c tbl force =
        PostApplyHookMigration.apply m c tbl true
    ∧ PostApplyHookMigration.rollback m c tbl force =
        PostApplyHookMigration.rollback m c tbl true
    ∧ (∀ tb, ledgerRows tb ((PostApplyHookMigration.apply m c tbl force).conn).allOps
          = ledgerRows tb c.allOps)
    ∧ (∀ tb, ledgerRows tb ((PostApplyHookMigration.rollback m c tbl force).conn).allOps
          = ledgerRows tb c.allOps) := by
  refine ⟨rfl, rfl, rfl, rfl, ?_, ?_⟩
  · exact fun tb =>
      ((ledgerSame_process_steps m.steps Direction.apply true c) hclean).2 tb
  · exact fun tb =>
      ((ledgerSame_process_steps m.steps.reverse Direction.rollback true c) hclean).2 tb

/-- C8 witness: the hook migration run with force=false equals the run
with force=true, and the ledger of table "t" is unchanged by it. -/
theorem c8_hook_force_and_ledger_frame_witness :
    PostApplyHookMigration.apply hookMig w4conn "t" false =
        PostApplyHookMigration.apply hookMig w4conn "t" true
    ∧ ledgerRows "t" ((PostApplyHookMigration.apply hookMig w4conn "t" false).conn).allOps
        = ledgerRows "t" w4conn.allOps := by
  have h := c8_hook_force_and_ledger_frame hookMig w4conn "t" false (by decide)
  exact ⟨h.2.2.1, h.2.2.2.2.1 "t"⟩

/-- C6: MigrationList.apply (and symmetrically rollback) runs every Normal
member in list order followed by every PostApplyHook member, and the hook
phase is insensitive to the caller's force argument (hooks effectively run
with force=true); when the Normal member list is empty the call performs
no operation at all — in particular the hooks are not run. -/
theorem c6_list_apply_order (ml : MigrationList) (c : Conn) (force : Bool) :
    (ml.items = [] →
        ml.apply c force = DbResult.ok c ∧ ml.rollback c force = DbResult.ok c)
    ∧ (∀ c2, ml.items ≠ [] →
        runMigrations ml.migration_table force Direction.apply c ml.items
          = DbResult.ok c2 →
        ml.apply c force =
          runMigrations ml.migration_table force Direction.apply c2 ml.post_apply)
    ∧ (∀ e c2, ml.items ≠ [] →
        runMigrations ml.migration_table force Direction.apply c ml.items
          = DbResult.err e c2 →
        ml.apply c force = DbResult.err e c2)
    ∧ (∀ c2, ml.items ≠ [] →
        runMigrations ml.migration_table force Direction.rollback c ml.items
          = DbResult.ok c2 →
        ml.rollback c force =
          runMigrations ml.migration_table force Direction.rollback c2 ml.post_apply)
    ∧ (∀ e c2, ml.items ≠ [] →
        runMigrations ml.migration_table force Direction.rollback c ml.items
          = DbResult.err e c2 →
        ml.rollback c force = DbResult.err e c2)
    ∧ (∀ (d : Direction) (force2 : Bool) (c2 : Conn),
        (∀ h ∈ ml.post_apply, h.kind = MigrationKind.postApplyHook) →
        runMigrations ml.migration_table force d c2 ml.post_apply =
          runMigrations ml.migration_table force2 d c2 ml.post_apply) := by
  refine ⟨?_, ?_, ?_, ?_, ?_, ?_⟩
  · intro h
    constructor <;> simp [MigrationList.apply, MigrationList.rollback, h]
  · intro c2 hne hrun
    rw [MigrationList.apply, if_neg (by simpa [List.isEmpty_iff] using hne),
        runMigrations_append, hrun]
  · intro e c2 hne hrun
    rw [MigrationList.apply, if_neg (by simpa [List.isEmpty_iff] using hne),
        runMigrations_append, hrun]
  · intro c2 hne hrun
    rw [MigrationList.rollback, if_neg (by simpa [List.isEmpty_iff] using hne),
        runMigrations_append, hrun]
  · intro e c2 hne hrun
    rw [MigrationList.rollback, if_neg (by simpa [List.isEmpty_iff] using hne),
        runMigrations_append, hrun]
  · intro d force2 c2 hk
    exact runMigrations_hooks_force ml.migration_table d force force2
      ml.post_apply c2 hk

/-- C6 witness: a list with no Normal members but one hook is a no-op in
both directions — the hook is not run and the connection is untouched. -/
theorem c6_list_apply_order_witness :
    MigrationList.apply emptyWithHook w4conn false = DbResult.ok w4conn
    ∧ MigrationList.rollback emptyWithHook w4conn false = DbResult.ok w4conn := by
  exact (c6_list_apply_order emptyWithHook w4conn false).1 rfl

theorem migration_apply_err_compensate (m : Migration) (c : Conn)
    (force : Bool) (pre post : List Transaction) (t : Transaction)
    (e : StepAction) (c1 c2 : Conn)
    (hsteps : m.steps = pre ++ t :: post)
    (hpre : runSeq Direction.apply force c pre = DbResult.ok c1)
    (hfail : t.apply c1 force = DbResult.err e c2) :
    process_steps m.steps Direction.apply force c =
      DbResult.err e (compensateLoop Direction.rollback c2.rollback pre.reverse) := by
  rw [process_steps, hsteps]
  have ha := processLoop_append_ok Direction.apply force (t :: post) pre c c1 [] hpre
  rw [List.nil_append] at ha
  rw [ha]
  exact processLoop_err Direction.apply force c1 c2 pre post t e hfail

/-- C1 counterexample: in `cx1mig` the first two transactions execute and
the third raises; the claim says rollback is then invoked on every
previously-executed Transaction in reverse order, but compensating the
second transaction raises ("cr1" fails), after which the first
transaction's rollback "cr0" is never invoked: it appears nowhere in the
final connection state, although the first transaction's apply "ca0" was
executed and committed. -/
theorem c1_counterexample :
    Migration.apply cx1mig cx1conn "t" false =
        DbResult.err (StepAction.sql "ca2") cx1final
    ∧ Op.act (StepAction.sql "ca0") ∈ cx1final.committed
    ∧ Op.act (StepAction.sql "cr0") ∉ cx1final.allOps := by
  refine ⟨by decide, by decide, by decide⟩

/-- C1 (amended): if one Transaction raises (and is not configured to
swallow the error) then Migration.apply raises that same failure, the
current database transaction is rolled back, and rollback is invoked on
the previously-executed Transactions in reverse order, stopping early if
one of those compensating rollbacks itself raises (when none raises, the
result is exactly the sequential rollback of the executed prefix in
reverse); no ledger row for the migration's id is inserted — the ledger
contents of every migration table are unchanged; the ledger insert and
commit happen only after every Transaction completes without raising. -/
theorem c1_atomic_partial_failure (m : Migration) (c : Conn) (tbl : String)
    (force : Bool) :
    (∀ (pre post : List Transaction) (t : Transaction) (e : StepAction)
        (c1 c2 : Conn), c.clean = true → m.steps = pre ++ t :: post →
        runSeq Direction.apply force c pre = DbResult.ok c1 →
        t.apply c1 force = DbResult.err e c2 →
          m.apply c tbl force = DbResult.err e
              (compensateLoop Direction.rollback c2.rollback pre.reverse)
          ∧ ∀ tb, ledgerRows tb ((m.apply c tbl force).conn).allOps
              = ledgerRows tb c.allOps)
    ∧ (∀ (pre post : List Transaction) (t : Transaction) (e : StepAction)
        (c1 c2 c3 : Conn), m.steps = pre ++ t :: post →
        runSeq Direction.apply force c pre = DbResult.ok c1 →
        t.apply c1 force = DbResult.err e c2 →
        runSeq Direction.rollback false c2.rollback pre.reverse = DbResult.ok c3 →
          m.apply c tbl force = DbResult.err e c3)
    ∧ (∀ c0, process_steps m.steps Direction.apply force c = DbResult.ok c0 →
        m.apply c tbl force = DbResult.ok
          (Conn.commit { c0 with pending :=
              c0.pending ++ [Op.ledgerInsert tbl m.id] })) := by
  refine ⟨?_, ?_, ?_⟩
  · intro pre post t e c1 c2 hclean hsteps hpre hfail
    have hps := migration_apply_err_compensate m c force pre post t e c1 c2
      hsteps hpre hfail
    have hmain : m.apply c tbl force = DbResult.err e
        (compensateLoop Direction.rollback c2.rollback pre.reverse) := by
      simp only [Migration.apply, hps]
    refine ⟨hmain, fun tb => ?_⟩
    have hls := (ledgerSame_process_steps m.steps Direction.apply force c) hclean
    have h2 := hls.2 tb
    rw [hps] at h2
    rw [hmain]
    exact h2
  · intro pre post t e c1 c2 c3 hsteps hpre hfail hcomp
    have hps := migration_apply_err_compensate m c force pre post t e c1 c2
      hsteps hpre hfail
    rw [compensateLoop_ok Direction.rollback pre.reverse c2.rollback c3 hcomp] at hps
    simp only [Migration.apply, hps]
  · intro c0 h
    simp only [Migration.apply, h]

/-- C1 witness: in `w1mig` the second transaction raises; the executed
first transaction is compensated (its rollback runs and commits) and the
ledger of table "t" is unchanged. -/
theorem c1_atomic_partial_failure_witness :
    Migration.apply w1mig w1conn "t" false =
        DbResult.err (StepAction.sql "wa1") w1final
    ∧ ledgerRows "t" w1final.allOps = ledgerRows "t" w1conn.allOps := by
  have hfix := c1_atomic_partial_failure w1mig w1conn "t" false
  have hmain := hfix.2.1 [sqlStep 0 "wa0" "wr0"] [] (sqlStep 1 "wa1" "wr1")
    (StepAction.sql "wa1")
    { committed := [Op.act (StepAction.sql "wa0")], pending := [], commits := 1,
      failSql := ["wa1"], failCall := [] }
    { committed := [Op.act (StepAction.sql "wa0")], pending := [], commits := 1,
      failSql := ["wa1"], failCall := [] }
    w1final rfl (by decide) (by decide) (by decide)
  have hled := (hfix.1 [sqlStep 0 "wa0" "wr0"] [] (sqlStep 1 "wa1" "wr1")
    (StepAction.sql "wa1")
    { committed := [Op.act (StepAction.sql "wa0")], pending := [], commits := 1,
      failSql := ["wa1"], failCall := [] }
    { committed := [Op.act (StepAction.sql "wa0")], pending := [], commits := 1,
      failSql := ["wa1"], failCall := [] }
    (by decide) rfl (by decide) (by decide)).2 "t"
  rw [hmain] at hled
  exact ⟨hmain, hled⟩

/-- C2 counterexample: in `cx2mig` the first two transactions execute and
the third raises; during compensation the second transaction's rollback
"dr1" raises.  The claim says compensation then continues with the
remaining executed Transactions, but the first transaction's rollback
"dr0" is never executed — only the original failure is re-raised. -/
theorem c2_counterexample :
    Migration.apply cx2mig cx2conn "t" false =
        DbResult.err (StepAction.sql "da2") cx2final
    ∧ Op.act (StepAction.sql "da0") ∈ cx2final.committed
    ∧ Op.act (StepAction.sql "dr1") ∉ cx2final.allOps
    ∧ Op.act (StepAction.sql "dr0") ∉ cx2final.allOps := by
  refine ⟨by decide, by decide, by decide, by decide⟩

/-- C2 (amended): during the compensating pass of the shared
step-processing algorithm, if reversing a previously-executed Transaction
raises a DatabaseError, that secondary failure is logged and the
compensating pass stops — the remaining executed Transactions are not
compensated; in every case the original failure is re-raised unchanged to
the caller, never replaced or masked by the secondary failure: the result
carries the original error `e`, not the secondary error `e2`, and the
connection state is the one reached when the secondary failure was
raised. -/
theorem c2_compensation_stops (steps : List Transaction) (d : Direction)
    (force : Bool) (c : Conn) (pre post q1 q2 : List Transaction)
    (t tfail : Transaction) (e e2 : StepAction) (c1 c2 c3 c4 : Conn)
    (hsteps : steps = pre ++ t :: post)
    (hpre : runSeq d force c pre = DbResult.ok c1)
    (hfail : runDir d t c1 force = DbResult.err e c2)
    (hsplit : pre.reverse = q1 ++ tfail :: q2)
    (hq1 : runSeq d.reverse false c2.rollback q1 = DbResult.ok c3)
    (hbad : runDir d.reverse tfail c3 false = DbResult.err e2 c4) :
    process_steps steps d force c = DbResult.err e c4 := by
  have ha := processLoop_append_ok d force (t :: post) pre c c1 [] hpre
  rw [List.nil_append] at ha
  have hb := processLoop_err d force c1 c2 pre post t e hfail
  rw [hsplit] at hb
  rw [compensateLoop_stop d.reverse tfail e2 q2 q1 c2.rollback c3 c4 hq1 hbad] at hb
  rw [process_steps, hsteps, ha]
  exact hb

/-- C2 witness: concrete run of the amended statement on `w2mig`: the
third transaction raises "ea2", compensating the second raises "er1", the
pass stops there and the original error "ea2" is re-raised with the state
reached at the secondary failure. -/
theorem c2_compensation_stops_witness :
    process_steps w2mig.steps Direction.apply false w2conn
      = DbResult.err (StepAction.sql "ea2") w2final := by
  exact c2_compensation_stops w2mig.steps Direction.apply false w2conn
    [sqlStep 0 "ea0" "er0", sqlStep 1 "ea1" "er1"] [] []
    [sqlStep 0 "ea0" "er0"]
    (sqlStep 2 "ea2" "er2") (sqlStep 1 "ea1" "er1")
    (StepAction.sql "ea2") (StepAction.sql "er1")
    w2final w2final w2final w2final
    rfl (by decide) (by decide) (by decide) (by decide) (by decide)

/-- C7: a 'q' response sets every candidate's choice to 'no' and
terminates, so the output is empty regardless of cursor position (for any
in-range cursor state, and for the whole selector from its start); in all
cases the returned MigrationList contains exactly the candidates whose
recorded choice is 'yes', in original candidate order (the final selection
state lists the candidates in their original order and the output is the
yes-filtered projection, a sublist of the candidates); with three
candidates and input 'n' then 'a' the output is candidates 2 and 3. -/
theorem c7_interactive_selector (c : Conn) (ml : MigrationList)
    (d : Direction) (input : List Response) :
    (∃ r, prompt_migrations c ml d (Response.q :: input) = some r
        ∧ r.items = [])
    ∧ (∀ (pms : List PromptedMigration) (position : Int),
        position < (pms.length : Int) →
        promptLoop (Response.q :: input) pms position =
          some (pms.map (fun pm => { pm with choice := some Choice.no }))
        ∧ (pms.map (fun pm => { pm with choice := some Choice.no })).filter
            (fun pm => pm.choice == some Choice.yes) = [])
    ∧ (∀ r, prompt_migrations c ml d input = some r →
        ∃ final, promptLoop input
            (ml.items.map (fun m => { migration := m, choice := none })) 0 =
            some final
          ∧ final.map (fun pm => pm.migration) = ml.items
          ∧ r.items = (final.filter
              (fun pm => pm.choice == some Choice.yes)).map (fun pm => pm.migration)
          ∧ r.items.Sublist ml.items)
    ∧ prompt_migrations c exList3 d [Response.n, Response.a] =
        some (exList3.replace [mkMig "02", mkMig "03"]) := by
  have hq : ∀ (pms : List PromptedMigration) (position : Int),
      position < (pms.length : Int) →
      promptLoop (Response.q :: input) pms position =
        some (pms.map (fun pm => { pm with choice := some Choice.no })) := by
    intro pms position hlt
    simp only [promptLoop]
    rw [if_pos hlt]
  have hfil : ∀ (pms : List PromptedMigration),
      (pms.map (fun pm => { pm with choice := some Choice.no })).filter
        (fun pm => pm.choice == some Choice.yes) = [] := by
    intro pms
    rw [List.filter_eq_nil_iff]
    intro pm hpm
    obtain ⟨x, hx, rfl⟩ := List.mem_map.mp hpm
    simp
  refine ⟨?_, fun pms position hlt => ⟨hq pms position hlt, hfil pms⟩, ?_, ?_⟩
  · by_cases h : (0 : Int) <
        ((ml.items.map (fun m =>
          ({ migration := m, choice := none } : PromptedMigration))).length : Int)
    · refine ⟨ml.replace [], ?_, rfl⟩
      simp only [prompt_migrations]
      rw [hq _ 0 h]
      simp only [hfil, List.map_nil]
    · have hnil : ml.items = [] := by
        rcases hml : ml.items with _ | ⟨a, rest⟩
        · rfl
        · exfalso
          apply h
          rw [hml]
          simp only [List.length_map, List.length_cons]
          omega
      refine ⟨ml.replace [], ?_, rfl⟩
      simp [prompt_migrations, hnil, promptLoop, MigrationList.replace]
  · intro r h
    simp only [prompt_migrations] at h
    cases hp : promptLoop input
        (ml.items.map (fun m => { migration := m, choice := none })) 0 with
    | none => rw [hp] at h; cases h
    | some final =>
      rw [hp] at h
      have h2 : ml.replace ((final.filter
          (fun pm => pm.choice == some Choice.yes)).map (fun pm => pm.migration)) = r :=
        Option.some.inj h
      have hmig := promptLoop_migrations input _ 0 final hp
      have hmig2 : final.map (fun pm => pm.migration) = ml.items :=
        hmig.trans (map_mk_migration ml.items)
      have hri : r.items = (final.filter
          (fun pm => pm.choice == some Choice.yes)).map (fun pm => pm.migration) := by
        rw [← h2]
        rfl
      refine ⟨final, rfl, hmig2, hri, ?_⟩
      have hsub : ((final.filter
          (fun pm => pm.choice == some Choice.yes)).map (fun pm => pm.migration)).Sublist
          (final.map (fun pm => pm.migration)) :=
        List.Sublist.map _ (List.filter_sublist final)
      rw [hmig2] at hsub
      rw [hri]
      exact hsub
  · rfl

/-- C7 witness: concrete in-range instance of the 'q' clause: on the three
prompted candidates of `exList3`, input 'q' marks all three 'no' and the
yes-filter of the result is empty. -/
theorem c7_interactive_selector_witness :
    promptLoop [Response.q]
        (exList3.items.map (fun m =>
          ({ migration := m, choice := none } : PromptedMigration))) 0 =
      some ((exList3.items.map (fun m =>
          ({ migration := m, choice := none } : PromptedMigration))).map
        (fun pm => { pm with choice := some Choice.no }))
    ∧ ((exList3.items.map (fun m =>
          ({ migration := m, choice := none } : PromptedMigration))).map
        (fun pm => { pm with choice := some Choice.no })).filter
        (fun pm => pm.choice == some Choice.yes) = [] := by
  exact (c7_interactive_selector w4conn exList3 Direction.apply []).2.1
    (exList3.items.map (fun m =>
      ({ migration := m, choice := none } : PromptedMigration))) 0
    (by decide)

/-- C10: in the selector's main loop the cursor position stays between 0
and the number of candidates inclusive: from any in-range reading position
every response leads to a next position in [0, len] ('k' at 0 is clamped
by max(0, position-1) to 0, 'j' is clamped by min(len, position+1)); the
loop terminates exactly when the position reaches the candidate count
(whatever the remaining input) or a bulk command 'd', 'a' or 'q' fires,
and on every other response it continues with the clamped next position
over a state of unchanged length. -/
theorem c10_cursor_bounds (pms : List PromptedMigration) (position : Int)
    (input : List Response) (h0 : 0 ≤ position)
    (h1 : position < (pms.length : Int)) :
    (∀ r, 0 ≤ nextPosition (pms.length : Int) position r
        ∧ nextPosition (pms.length : Int) position r ≤ (pms.length : Int))
    ∧ (∀ len : Int, nextPosition len 0 Response.k = 0)
    ∧ (∀ (pms2 : List PromptedMigration) (p2 : Int) (input2 : List Response),
        (pms2.length : Int) ≤ p2 → promptLoop input2 pms2 p2 = some pms2)
    ∧ promptLoop (Response.d :: input) pms position = some pms
    ∧ promptLoop (Response.a :: input) pms position = some (markFrom pms position)
    ∧ promptLoop (Response.q :: input) pms position =
        some (pms.map (fun pm => { pm with choice := some Choice.no }))
    ∧ (∀ r, r ≠ Response.d → r ≠ Response.a → r ≠ Response.q →
        ∃ pms2, pms2.length = pms.length ∧
          promptLoop (r :: input) pms position =
            promptLoop input pms2 (nextPosition (pms.length : Int) position r)) := by
  refine ⟨?_, ?_, ?_, ?_, ?_, ?_, ?_⟩
  · intro r
    cases r <;> simp only [nextPosition] <;> constructor <;> omega
  · intro len
    simp only [nextPosition]
    decide
  · intro pms2 p2 input2 hle
    cases input2 with
    | nil => simp only [promptLoop]; rw [if_neg (not_lt.mpr hle)]
    | cons r rest => simp only [promptLoop]; rw [if_neg (not_lt.mpr hle)]
  · simp only [promptLoop]; rw [if_pos h1]
  · simp only [promptLoop]; rw [if_pos h1]
  · simp only [promptLoop]; rw [if_pos h1]
  · intro r hd ha hq
    cases r with
    | d => exact absurd rfl hd
    | a => exact absurd rfl ha
    | q => exact absurd rfl hq
    | y =>
      exact ⟨setChoice pms position Choice.yes, setChoice_length _ pms position,
        by simp only [promptLoop]; rw [if_pos h1]⟩
    | n =>
      exact ⟨setChoice pms position Choice.no, setChoice_length _ pms position,
        by simp only [promptLoop]; rw [if_pos h1]⟩
    | v =>
      refine ⟨pms, rfl, ?_⟩
      simp only [promptLoop]
      rw [if_pos h1]
      rfl
    | help =>
      refine ⟨pms, rfl, ?_⟩
      simp only [promptLoop]
      rw [if_pos h1]
      rfl
    | j =>
      refine ⟨pms, rfl, ?_⟩
      simp only [promptLoop]
      rw [if_pos h1]
    | k =>
      refine ⟨pms, rfl, ?_⟩
      simp only [promptLoop]
      rw [if_pos h1]

/-- C10 witness: with one candidate and the cursor at 0, the bounds and
the 'd' termination hold concretely. -/
theorem c10_cursor_bounds_witness :
    promptLoop [Response.d] w10pms 0 = some w10pms
    ∧ 0 ≤ nextPosition (w10pms.length : Int) 0 Response.k
    ∧ nextPosition (w10pms.length : Int) 0 Response.k ≤ (w10pms.length : Int) := by
  have h := c10_cursor_bounds w10pms 0 [] (by decide) (by decide)
  exact ⟨h.2.2.2.1, (h.1 Response.k).1, (h.1 Response.k).2⟩

end Yoyo
